import Mathlib

/-!
Verification of the earthquake feed aggregation logic (`earthquakes.py`).

The embedding models the pure data-extraction and aggregation core:
* a `Record` is one earthquake event (GeoJSON feature) with its magnitude,
  coordinate triple and epoch-millisecond timestamp; Python floats are
  modelled by `ℚ`;
* a `Data` value is the parsed feed response: the metadata count and the
  list of features, in feed order;
* the Python `dict` used by `get_magnitudes_per_year` is modelled by an
  insertion-ordered association list `List (ℤ × List ℚ)`;
* the two plotting functions are modelled by the series they compute
  (year list and value list); the matplotlib rendering calls are I/O and
  carry no data;
* `date.fromtimestamp(x).year` floors the real timestamp `x` to whole
  epoch seconds and converts through the local calendar; the
  seconds-to-local-calendar-year conversion is kept abstract as a
  function parameter `fy : ℤ → ℤ`, since it lives in the `datetime`
  library and the machine environment, outside the source;
* a Python exception (`IndexError` on the empty features list in
  `get_maximum`) is modelled by `Option`, with `none` as failure.
-/

namespace Earthquakes

/-- One earthquake feature: the field `properties.mag`, the triple
`geometry.coordinates` (longitude, latitude, altitude) and the field
`properties.time` in epoch milliseconds. -/
structure Record where
  mag : ℚ
  coords : ℚ × ℚ × ℚ
  time : ℤ
deriving DecidableEq

/-- The parsed feed response: `metadata.count` and the features list. -/
structure Data where
  metadata_count : ℕ
  features : List Record
deriving DecidableEq

/-- `count_earthquakes`: reads the count stored under `metadata`. -/
def count_earthquakes (data : Data) : ℕ :=
  data.metadata_count

/-- `get_magnitude`: reads the field `mag` under `properties`. -/
def get_magnitude (earthquake : Record) : ℚ :=
  earthquake.mag

/-- `get_location`: the first two entries of the coordinate triple under
`geometry`, discarding the third. -/
def get_location (earthquake : Record) : ℚ × ℚ :=
  (earthquake.coords.1, earthquake.coords.2.1)

/-- The loop body of `get_maximum`, named so the fold can be reasoned
about: replace the running (magnitude, location) pair only when the item
compares strictly greater. -/
def maxStep (acc : ℚ × (ℚ × ℚ)) (item : Record) : ℚ × (ℚ × ℚ) :=
  if get_magnitude item > acc.1 then (get_magnitude item, get_location item)
  else acc

/-- `get_maximum`: starts the running maximum from the first feature (an
`IndexError`, hence `none`, on an empty list), then scans all features,
replacing the running pair only on a strict `>` comparison. -/
def get_maximum (data : Data) : Option (ℚ × (ℚ × ℚ)) :=
  match data.features with
  | [] => none
  | first :: _ =>
      some (data.features.foldl maxStep
        (get_magnitude first, get_location first))

/-- `get_year`: Python computes `date.fromtimestamp(timestamp/1000).year`.
Here `timestamp/1000` is true division (a real number, exact in `ℚ`), and
`date.fromtimestamp` floors it to whole epoch seconds before the local
calendar conversion `fy`, which models the `datetime` library together
with the local time zone of the machine. -/
def get_year (fy : ℤ → ℤ) (earthquake : Record) : ℤ :=
  fy ⌊(earthquake.time : ℚ) / 1000⌋

/-- One step of the `year_dict` update in `get_magnitudes_per_year`:
append `m` to the list at key `y` when the key is present, else bind key
`y` to the one-element list `[m]`, on a Python (insertion-ordered) dict
modelled as an association list. -/
def updateYearDict (d : List (ℤ × List ℚ)) (y : ℤ) (m : ℚ) : List (ℤ × List ℚ) :=
  match d with
  | [] => [(y, [m])]
  | (y', ms) :: rest =>
      if y' = y then (y', ms ++ [m]) :: rest
      else (y', ms) :: updateYearDict rest y m

/-- Dict indexing on the association-list model: the list stored at the
first entry with key `y` (`[]` when the key is absent — unreachable in
the source, which only indexes by present keys). -/
def dictGet (d : List (ℤ × List ℚ)) (y : ℤ) : List ℚ :=
  match d with
  | [] => []
  | (y', ms) :: rest => if y' = y then ms else dictGet rest y

/-- The loop body of `get_magnitudes_per_year`, named so the fold can be
reasoned about: one quake updates the year dict at its year with its
magnitude. -/
def groupStep (fy : ℤ → ℤ) (year_dict : List (ℤ × List ℚ)) (quake : Record) :
    List (ℤ × List ℚ) :=
  updateYearDict year_dict (get_year fy quake) (get_magnitude quake)

/-- `get_magnitudes_per_year`: single pass over the quakes, appending the
magnitude of each quake to the list of its year. -/
def get_magnitudes_per_year (fy : ℤ → ℤ) (earthquakes : List Record) :
    List (ℤ × List ℚ) :=
  earthquakes.foldl (groupStep fy) []

/-- The series computed by `plot_average_magnitude_per_year`: the keys of
the grouping, sorted ascending (Python `sort`), paired with, per year,
the sum of the magnitude list of that year accumulated left-to-right
from `0`, divided by its length. -/
def plot_average_magnitude_per_year (fy : ℤ → ℤ) (earthquakes : List Record) :
    List ℤ × List ℚ :=
  let dict := get_magnitudes_per_year fy earthquakes
  let year_list := List.insertionSort (· ≤ ·) (dict.map Prod.fst)
  let avg_list := year_list.map (fun year =>
    let mag_list := dictGet dict year
    (mag_list.foldl (fun value mag => value + mag) 0) / (mag_list.length : ℚ))
  (year_list, avg_list)

/-- The series computed by `plot_number_per_year`: the keys of the
grouping, sorted ascending, paired with the list length of each year. -/
def plot_number_per_year (fy : ℤ → ℤ) (earthquakes : List Record) :
    List ℤ × List ℕ :=
  let dict := get_magnitudes_per_year fy earthquakes
  let year_list := List.insertionSort (· ≤ ·) (dict.map Prod.fst)
  (year_list, year_list.map (fun year => (dictGet dict year).length))

/-- Sample record, magnitude 2.5, used by witnesses. -/
def r1 : Record := ⟨5/2, (1, 2, 3), 1000⟩

/-- Sample record, magnitude 4.1, used by witnesses. -/
def r2 : Record := ⟨41/10, (4, 5, 6), 2000⟩

/-- Sample record, magnitude 4.1 with another location, used by
witnesses. -/
def r3 : Record := ⟨41/10, (7, 8, 9), 5000⟩

/-! ### Association-list dict lemmas -/

theorem dictGet_updateYearDict (d : List (ℤ × List ℚ)) (y y' : ℤ) (m : ℚ) :
    dictGet (updateYearDict d y m) y' =
      if y' = y then dictGet d y ++ [m] else dictGet d y' := by
  induction d with
  | nil =>
      by_cases h : y' = y
      · simp [updateYearDict, dictGet, h]
      · simp [updateYearDict, dictGet, h, Ne.symm h]
  | cons p rest ih =>
      obtain ⟨y₀, ms⟩ := p
      by_cases h0 : y₀ = y
      · subst h0
        by_cases h : y' = y₀
        · simp [updateYearDict, dictGet, h]
        · simp [updateYearDict, dictGet, h, Ne.symm h]
      · by_cases h : y' = y
        · subst h
          simp [updateYearDict, dictGet, h0, Ne.symm h0, ih]
        · by_cases h1 : y₀ = y' <;> simp [updateYearDict, dictGet, h0, h1, h, ih]

theorem keys_updateYearDict (d : List (ℤ × List ℚ)) (y : ℤ) (m : ℚ) :
    (updateYearDict d y m).map Prod.fst =
      if y ∈ d.map Prod.fst then d.map Prod.fst else d.map Prod.fst ++ [y] := by
  induction d with
  | nil => simp [updateYearDict]
  | cons p rest ih =>
      obtain ⟨y₀, ms⟩ := p
      by_cases h0 : y₀ = y
      · subst h0; simp [updateYearDict]
      · by_cases hm : y ∈ rest.map Prod.fst <;>
          simp [updateYearDict, h0, Ne.symm h0, hm, ih]

theorem mem_keys_updateYearDict (d : List (ℤ × List ℚ)) (y : ℤ) (m : ℚ) (y' : ℤ) :
    y' ∈ (updateYearDict d y m).map Prod.fst ↔ y' ∈ d.map Prod.fst ∨ y' = y := by
  rw [keys_updateYearDict]
  by_cases h : y ∈ d.map Prod.fst
  · simp only [h, if_true]
    constructor
    · exact Or.inl
    · rintro (h' | rfl) <;> [exact h'; exact h]
  · simp [h]

theorem nodup_keys_updateYearDict (d : List (ℤ × List ℚ)) (y : ℤ) (m : ℚ)
    (h : (d.map Prod.fst).Nodup) :
    ((updateYearDict d y m).map Prod.fst).Nodup := by
  rw [keys_updateYearDict]
  by_cases hy : y ∈ d.map Prod.fst
  · simpa [hy] using h
  · simp [hy, List.nodup_append, h]

theorem snd_ne_nil_updateYearDict (d : List (ℤ × List ℚ)) (y : ℤ) (m : ℚ)
    (h : ∀ p ∈ d, p.2 ≠ []) :
    ∀ p ∈ updateYearDict d y m, p.2 ≠ [] := by
  induction d with
  | nil =>
      intro p hp
      simp only [updateYearDict, List.mem_singleton] at hp
      rw [hp]
      simp
  | cons q rest ih =>
      obtain ⟨y₀, ms⟩ := q
      intro p hp
      by_cases h0 : y₀ = y
      · simp only [updateYearDict, if_pos h0] at hp
        rcases List.mem_cons.mp hp with hpe | hp'
        · rw [hpe]; simp
        · exact h p (List.mem_cons_of_mem _ hp')
      · simp only [updateYearDict, if_neg h0] at hp
        rcases List.mem_cons.mp hp with hpe | hp'
        · rw [hpe]; exact h _ (List.mem_cons_self _ _)
        · exact ih (fun r hr => h r (List.mem_cons_of_mem _ hr)) p hp'

theorem sum_lengths_updateYearDict (d : List (ℤ × List ℚ)) (y : ℤ) (m : ℚ) :
    ((updateYearDict d y m).map (fun p => p.2.length)).sum =
      ((d.map (fun p => p.2.length)).sum) + 1 := by
  induction d with
  | nil => simp [updateYearDict]
  | cons q rest ih =>
      obtain ⟨y₀, ms⟩ := q
      by_cases h0 : y₀ = y
      · subst h0; simp [updateYearDict]; ring
      · simp [updateYearDict, h0, ih]; ring

theorem dictGet_of_mem (d : List (ℤ × List ℚ)) (p : ℤ × List ℚ)
    (hp : p ∈ d) (hnd : (d.map Prod.fst).Nodup) :
    dictGet d p.1 = p.2 := by
  induction d with
  | nil => cases hp
  | cons q rest ih =>
      rcases List.mem_cons.mp hp with rfl | hp'
      · simp [dictGet]
      · have hne : q.1 ≠ p.1 := by
          intro he
          have : p.1 ∈ rest.map Prod.fst := List.mem_map_of_mem Prod.fst hp'
          rw [List.map_cons, List.nodup_cons] at hnd
          exact hnd.1 (he ▸ this)
        obtain ⟨y₀, ms⟩ := q
        simpa [dictGet, hne] using ih hp' (by
          rw [List.map_cons, List.nodup_cons] at hnd
          exact hnd.2)

/-! ### Grouping characterization -/

theorem dictGet_foldl_groupStep (fy : ℤ → ℤ) (l : List Record) :
    ∀ (d : List (ℤ × List ℚ)) (y : ℤ),
      dictGet (l.foldl (groupStep fy) d) y =
        dictGet d y ++ (l.filter (fun q => get_year fy q = y)).map get_magnitude := by
  induction l with
  | nil => simp
  | cons q l ih =>
      intro d y
      simp only [List.foldl_cons, List.filter_cons]
      rw [ih, groupStep, dictGet_updateYearDict]
      by_cases h : get_year fy q = y
      · subst h
        simp [List.append_assoc]
      · simp [h, Ne.symm h]

theorem dictGet_get_magnitudes_per_year (fy : ℤ → ℤ) (l : List Record) (y : ℤ) :
    dictGet (get_magnitudes_per_year fy l) y =
      (l.filter (fun q => get_year fy q = y)).map get_magnitude := by
  have := dictGet_foldl_groupStep fy l [] y
  simpa [get_magnitudes_per_year, dictGet] using this

theorem mem_keys_foldl_groupStep (fy : ℤ → ℤ) (l : List Record) :
    ∀ (d : List (ℤ × List ℚ)) (y : ℤ),
      y ∈ (l.foldl (groupStep fy) d).map Prod.fst ↔
        y ∈ d.map Prod.fst ∨ y ∈ l.map (get_year fy) := by
  induction l with
  | nil => simp
  | cons q l ih =>
      intro d y
      simp only [List.foldl_cons, List.map_cons, List.mem_cons]
      rw [ih, groupStep, mem_keys_updateYearDict]
      tauto

theorem mem_keys_get_magnitudes_per_year (fy : ℤ → ℤ) (l : List Record) (y : ℤ) :
    y ∈ (get_magnitudes_per_year fy l).map Prod.fst ↔ y ∈ l.map (get_year fy) := by
  have := mem_keys_foldl_groupStep fy l [] y
  simpa [get_magnitudes_per_year] using this

theorem nodup_keys_foldl_groupStep (fy : ℤ → ℤ) (l : List Record) :
    ∀ (d : List (ℤ × List ℚ)), (d.map Prod.fst).Nodup →
      ((l.foldl (groupStep fy) d).map Prod.fst).Nodup := by
  induction l with
  | nil => intro d h; simpa using h
  | cons q l ih =>
      intro d h
      exact ih _ (nodup_keys_updateYearDict _ _ _ h)

theorem nodup_keys_get_magnitudes_per_year (fy : ℤ → ℤ) (l : List Record) :
    ((get_magnitudes_per_year fy l).map Prod.fst).Nodup :=
  nodup_keys_foldl_groupStep fy l [] (by simp)

theorem sum_lengths_foldl_groupStep (fy : ℤ → ℤ) (l : List Record) :
    ∀ (d : List (ℤ × List ℚ)),
      ((l.foldl (groupStep fy) d).map (fun p => p.2.length)).sum =
        ((d.map (fun p => p.2.length)).sum) + l.length := by
  induction l with
  | nil => simp
  | cons q l ih =>
      intro d
      simp only [List.foldl_cons, List.length_cons]
      rw [ih, groupStep, sum_lengths_updateYearDict]
      ring

theorem sum_lengths_get_magnitudes_per_year (fy : ℤ → ℤ) (l : List Record) :
    ((get_magnitudes_per_year fy l).map (fun p => p.2.length)).sum = l.length := by
  have := sum_lengths_foldl_groupStep fy l []
  simpa [get_magnitudes_per_year] using this

theorem snd_ne_nil_foldl_groupStep (fy : ℤ → ℤ) (l : List Record) :
    ∀ (d : List (ℤ × List ℚ)), (∀ p ∈ d, p.2 ≠ []) →
      ∀ p ∈ l.foldl (groupStep fy) d, p.2 ≠ [] := by
  induction l with
  | nil => intro d h; simpa using h
  | cons q l ih =>
      intro d h
      exact ih _ (snd_ne_nil_updateYearDict _ _ _ h)

theorem snd_ne_nil_get_magnitudes_per_year (fy : ℤ → ℤ) (l : List Record) :
    ∀ p ∈ get_magnitudes_per_year fy l, p.2 ≠ [] :=
  snd_ne_nil_foldl_groupStep fy l [] (by simp)

/-! ### Running-maximum fold characterization -/

theorem find_eq_of_agree {α : Type} (l : List α) (p q : α → Bool)
    (h : ∀ x ∈ l, p x = q x) : l.find? p = l.find? q := by
  induction l with
  | nil => rfl
  | cons a l ih =>
      rw [List.find?_cons, List.find?_cons, h a (List.mem_cons_self a l)]
      cases hq : q a
      · exact ih (fun x hx => h x (List.mem_cons_of_mem _ hx))
      · rfl

theorem maxScan_spec (l : List Record) :
    ∀ acc : ℚ × (ℚ × ℚ),
      (∀ r ∈ l, get_magnitude r ≤ (l.foldl maxStep acc).1) ∧
      acc.1 ≤ (l.foldl maxStep acc).1 ∧
      ((l.foldl maxStep acc = acc ∧ ∀ r ∈ l, get_magnitude r ≤ acc.1) ∨
       (acc.1 < (l.foldl maxStep acc).1 ∧
        ∃ r, l.find? (fun q => decide ((l.foldl maxStep acc).1 ≤ get_magnitude q)) =
            some r ∧
          get_magnitude r = (l.foldl maxStep acc).1 ∧
          get_location r = (l.foldl maxStep acc).2)) := by
  induction l with
  | nil =>
      intro acc
      exact ⟨by simp, le_refl _, Or.inl ⟨rfl, by simp⟩⟩
  | cons x l ih =>
      intro acc
      simp only [List.foldl_cons]
      by_cases hx : get_magnitude x > acc.1
      · have hstep : maxStep acc x = (get_magnitude x, get_location x) := by
          simp [maxStep, hx]
        simp only [hstep]
        obtain ⟨hub, hle, hdisj⟩ := ih (get_magnitude x, get_location x)
        refine ⟨?_, ?_, Or.inr ⟨?_, ?_⟩⟩
        · intro r hr
          rcases List.mem_cons.mp hr with rfl | hr'
          · exact hle
          · exact hub r hr'
        · exact le_of_lt (lt_of_lt_of_le hx hle)
        · exact lt_of_lt_of_le hx hle
        · rcases hdisj with ⟨heq, _⟩ | ⟨hlt, r, hfind, hmag, hloc⟩
          · refine ⟨x, ?_, ?_, ?_⟩
            · apply List.find?_cons_of_pos
              rw [heq]
              simp
            · rw [heq]
            · rw [heq]
          · refine ⟨r, ?_, hmag, hloc⟩
            rw [List.find?_cons_of_neg _ (by simpa using not_le.mpr hlt)]
            exact hfind
      · have hstep : maxStep acc x = acc := by
          simp [maxStep, hx]
        simp only [hstep]
        have hxle : get_magnitude x ≤ acc.1 := not_lt.mp hx
        obtain ⟨hub, hle, hdisj⟩ := ih acc
        refine ⟨?_, hle, ?_⟩
        · intro r hr
          rcases List.mem_cons.mp hr with rfl | hr'
          · exact le_trans hxle hle
          · exact hub r hr'
        · rcases hdisj with ⟨heq, hbnd⟩ | ⟨hlt, r, hfind, hmag, hloc⟩
          · refine Or.inl ⟨heq, ?_⟩
            intro r hr
            rcases List.mem_cons.mp hr with rfl | hr'
            · exact hxle
            · exact hbnd r hr'
          · refine Or.inr ⟨hlt, r, ?_, hmag, hloc⟩
            rw [List.find?_cons_of_neg _
              (by simpa using not_le.mpr (lt_of_le_of_lt hxle hlt))]
            exact hfind

/-! ### Series unfolding -/

theorem plot_average_fst (fy : ℤ → ℤ) (earthquakes : List Record) :
    (plot_average_magnitude_per_year fy earthquakes).1 =
      List.insertionSort (· ≤ ·)
        ((get_magnitudes_per_year fy earthquakes).map Prod.fst) := rfl

theorem plot_average_snd (fy : ℤ → ℤ) (earthquakes : List Record) :
    (plot_average_magnitude_per_year fy earthquakes).2 =
      (List.insertionSort (· ≤ ·)
        ((get_magnitudes_per_year fy earthquakes).map Prod.fst)).map (fun year =>
          ((dictGet (get_magnitudes_per_year fy earthquakes) year).foldl
              (fun value mag => value + mag) 0) /
            ((dictGet (get_magnitudes_per_year fy earthquakes) year).length : ℚ)) := rfl

theorem plot_number_fst (fy : ℤ → ℤ) (earthquakes : List Record) :
    (plot_number_per_year fy earthquakes).1 =
      List.insertionSort (· ≤ ·)
        ((get_magnitudes_per_year fy earthquakes).map Prod.fst) := rfl

/-! ### Claims -/

/-- Claim C1: whenever `get_maximum` returns a pair `(m, loc)` (which it
does exactly on non-empty collections, see C3), the magnitude component
`m` is the maximum of the magnitudes of all records, and `loc` is the
location of a record attaining that maximum. -/
theorem claim1_max_magnitude_and_location (d : Data) (m : ℚ) (loc : ℚ × ℚ)
    (h : get_maximum d = some (m, loc)) :
    (d.features.map get_magnitude).maximum = (m : WithBot ℚ) ∧
    loc ∈ (d.features.filter (fun r => get_magnitude r = m)).map get_location := by
  obtain ⟨n, feats⟩ := d
  cases feats with
  | nil => simp [get_maximum] at h
  | cons f rest =>
      simp only [get_maximum, Option.some.injEq] at h
      obtain ⟨hub, hle, hdisj⟩ :=
        maxScan_spec (f :: rest) (get_magnitude f, get_location f)
      simp only [h] at hub hle hdisj
      constructor
      · rw [List.maximum_eq_coe_iff]
        constructor
        · rcases hdisj with ⟨heqacc, _⟩ | ⟨_, r, hfind, hmag, _⟩
          · have hm : m = get_magnitude f := congrArg Prod.fst heqacc
            exact hm ▸ List.mem_map_of_mem get_magnitude (List.mem_cons_self f rest)
          · exact hmag ▸ List.mem_map_of_mem get_magnitude
              (List.mem_of_find?_eq_some hfind)
        · intro b hb
          obtain ⟨r, hr, rfl⟩ := List.mem_map.mp hb
          exact hub r hr
      · rcases hdisj with ⟨heqacc, _⟩ | ⟨_, r, hfind, hmag, hloc⟩
        · have hm : m = get_magnitude f := congrArg Prod.fst heqacc
          have hl : loc = get_location f := congrArg Prod.snd heqacc
          rw [hl]
          exact List.mem_map_of_mem get_location
            (List.mem_filter.mpr ⟨List.mem_cons_self f rest, by simp [hm]⟩)
        · rw [← hloc]
          exact List.mem_map_of_mem get_location
            (List.mem_filter.mpr ⟨List.mem_of_find?_eq_some hfind, by simp [hmag]⟩)

/-- Witness for C1 on a concrete three-record collection with a tie at
magnitude 4.1: the maximum is 4.1 and the reported location (4, 5)
belongs to a record attaining it. -/
theorem claim1_witness :
    (((Data.mk 3 [r1, r2, r3]).features.map get_magnitude).maximum =
      ((41/10 : ℚ) : WithBot ℚ)) ∧
    ((4 : ℚ), (5 : ℚ)) ∈
      (((Data.mk 3 [r1, r2, r3]).features.filter
        (fun r => get_magnitude r = (41/10 : ℚ))).map get_location) :=
  claim1_max_magnitude_and_location (Data.mk 3 [r1, r2, r3]) (41/10)
    ((4 : ℚ), (5 : ℚ))
    (by norm_num [get_maximum, maxStep, get_magnitude, get_location, r1, r2, r3])

/-- Claim C2: when two or more records share the maximum magnitude, the
location returned by `get_maximum` is that of the record appearing first
in input order among them (strict `>` comparison, first seen wins). -/
theorem claim2_tie_first_location (d : Data) (m : ℚ) (loc : ℚ × ℚ)
    (h : get_maximum d = some (m, loc))
    (htie : 2 ≤ d.features.countP (fun r => get_magnitude r = m)) :
    (d.features.find? (fun q => get_magnitude q = m)).map get_location = some loc := by
  obtain ⟨n, feats⟩ := d
  cases feats with
  | nil => simp [get_maximum] at h
  | cons f rest =>
      simp only [get_maximum, Option.some.injEq] at h
      obtain ⟨hub, hle, hdisj⟩ :=
        maxScan_spec (f :: rest) (get_magnitude f, get_location f)
      simp only [h] at hub hle hdisj
      rcases hdisj with ⟨heqacc, _⟩ | ⟨hlt, r, hfind, hmag, hloc⟩
      · have hm : m = get_magnitude f := congrArg Prod.fst heqacc
        have hl : loc = get_location f := congrArg Prod.snd heqacc
        rw [List.find?_cons_of_pos _ (by simp [hm])]
        simp [hl]
      · have hagree : ∀ q ∈ f :: rest,
            (fun q => decide ((m, loc).1 ≤ get_magnitude q)) q =
              (fun q => decide (get_magnitude q = m)) q := by
          intro q hq
          by_cases hqm : get_magnitude q = m
          · simp [hqm]
          · have hnle : ¬ (m ≤ get_magnitude q) :=
              fun hle' => hqm (le_antisymm (hub q hq) hle')
            simp only [decide_eq_decide]
            constructor
            · intro hle'; exact absurd hle' hnle
            · intro he; exact absurd he hqm
        rw [← find_eq_of_agree _ _ _ hagree, hfind]
        simp [← hloc]

/-- Witness for C2 on a concrete collection where two records share the
maximum magnitude 4.1: the location of the first of them, (4, 5), is
returned. -/
theorem claim2_witness :
    ((Data.mk 3 [r1, r2, r3]).features.find?
      (fun q => get_magnitude q = (41/10 : ℚ))).map get_location =
        some ((4 : ℚ), (5 : ℚ)) :=
  claim2_tie_first_location (Data.mk 3 [r1, r2, r3]) (41/10)
    ((4 : ℚ), (5 : ℚ))
    (by norm_num [get_maximum, maxStep, get_magnitude, get_location, r1, r2, r3])
    (by norm_num [List.countP_cons, get_magnitude, r1, r2, r3])

/-- Claim C3: on a collection with zero records, `get_maximum` fails (the
indexing of the first feature raises, modelled by `none`) instead of
returning a value, whatever the metadata count says. -/
theorem claim3_empty_collection_fails (n : ℕ) :
    get_maximum (Data.mk n []) = none := rfl

/-- Counterexample to C4 as stated: on the empty collection (empty
grouping, no years) the average-per-year computation does not fail; it
returns the degenerate empty series. -/
theorem claim4_counterexample :
    plot_average_magnitude_per_year (fun t => t) [] = ([], []) := rfl

/-- Claim C4 (amended): on an empty collection, whose grouping is empty,
`plot_average_magnitude_per_year` produces the degenerate empty series
(no years, no values) rather than failing. -/
theorem claim4_empty_grouping_empty_series (fy : ℤ → ℤ) :
    plot_average_magnitude_per_year fy [] = ([], []) := rfl

/-- Claim C5: the per-year grouping is a partition — year keys are
distinct, the list of a year holds exactly the magnitudes of the records
of that year in input order, and the lengths summed over all years equal
`count_earthquakes` (under the feed contract that the metadata count
matches the number of features). -/
theorem claim5_grouping_partition (fy : ℤ → ℤ) (d : Data) (y : ℤ)
    (hcount : d.metadata_count = d.features.length) :
    ((get_magnitudes_per_year fy d.features).map Prod.fst).Nodup ∧
    dictGet (get_magnitudes_per_year fy d.features) y =
      (d.features.filter (fun q => get_year fy q = y)).map get_magnitude ∧
    ((get_magnitudes_per_year fy d.features).map (fun p => p.2.length)).sum =
      count_earthquakes d :=
  ⟨nodup_keys_get_magnitudes_per_year fy d.features,
   dictGet_get_magnitudes_per_year fy d.features y,
   by rw [sum_lengths_get_magnitudes_per_year, count_earthquakes, hcount]⟩

/-- Witness for C5 on a concrete two-record collection with consistent
metadata count and the year of the first record. -/
theorem claim5_witness :
    ((get_magnitudes_per_year (fun t => t) (Data.mk 2 [r1, r2]).features).map
      Prod.fst).Nodup ∧
    dictGet (get_magnitudes_per_year (fun t => t) (Data.mk 2 [r1, r2]).features) 1 =
      ((Data.mk 2 [r1, r2]).features.filter
        (fun q => get_year (fun t => t) q = 1)).map get_magnitude ∧
    ((get_magnitudes_per_year (fun t => t) (Data.mk 2 [r1, r2]).features).map
      (fun p => p.2.length)).sum = count_earthquakes (Data.mk 2 [r1, r2]) :=
  claim5_grouping_partition (fun t => t) (Data.mk 2 [r1, r2]) 1 rfl

/-- Claim C6: `get_year` equals the abstract local calendar conversion
applied to the floor division of the millisecond timestamp by 1000 — the
true division by 1000 followed by the flooring inside
`date.fromtimestamp` is exactly integer floor division. -/
theorem claim6_year_floor_seconds (fy : ℤ → ℤ) (e : Record) :
    get_year fy e = fy (Int.fdiv e.time 1000) := by
  unfold get_year
  congr 1
  rw [Int.fdiv_eq_ediv _ (by norm_num)]
  exact_mod_cast Rat.floor_intCast_div_natCast e.time 1000

/-- Claim C7: the year sequences of both plotted series are strictly
ascending (hence duplicate-free), identical to each other, and their
members are exactly the years occurring in the input collection. -/
theorem claim7_years_sorted_and_exact (fy : ℤ → ℤ) (qs : List Record) (y : ℤ) :
    (plot_average_magnitude_per_year fy qs).1.Sorted (· < ·) ∧
    (plot_number_per_year fy qs).1 = (plot_average_magnitude_per_year fy qs).1 ∧
    (y ∈ (plot_average_magnitude_per_year fy qs).1 ↔ y ∈ qs.map (get_year fy)) := by
  refine ⟨?_, rfl, ?_⟩
  · rw [plot_average_fst]
    apply List.Sorted.lt_of_le
    · exact List.sorted_insertionSort _ _
    · rw [(List.perm_insertionSort _ _).nodup_iff]
      exact nodup_keys_get_magnitudes_per_year fy qs
  · rw [plot_average_fst, (List.perm_insertionSort _ _).mem_iff,
      mem_keys_get_magnitudes_per_year]

/-- Claim C8: each value of the average series is the arithmetic mean of
the magnitudes of the records of that year, the sum accumulated
left-to-right from 0 in input order, divided by their number. -/
theorem claim8_average_is_left_fold_mean (fy : ℤ → ℤ) (qs : List Record) :
    (plot_average_magnitude_per_year fy qs).2 =
      (plot_average_magnitude_per_year fy qs).1.map (fun year =>
        (((qs.filter (fun q => get_year fy q = year)).map get_magnitude).foldl
            (fun value mag => value + mag) 0) /
          (((qs.filter (fun q => get_year fy q = year)).map get_magnitude).length :
            ℚ)) := by
  rw [plot_average_snd, plot_average_fst]
  apply List.map_congr_left
  intro y hy
  rw [dictGet_get_magnitudes_per_year]

/-- Claim C9: grouping a permutation of a collection yields the same set
of year keys, each year list holding the magnitudes of that year in the
order of the permuted input, so the two groupings agree up to within-year
order. -/
theorem claim9_grouping_permutation_invariant (fy : ℤ → ℤ) (c p : List Record)
    (y : ℤ) (hperm : p.Perm c) :
    (y ∈ (get_magnitudes_per_year fy p).map Prod.fst ↔
      y ∈ (get_magnitudes_per_year fy c).map Prod.fst) ∧
    dictGet (get_magnitudes_per_year fy p) y =
      (p.filter (fun q => get_year fy q = y)).map get_magnitude ∧
    (dictGet (get_magnitudes_per_year fy p) y).Perm
      (dictGet (get_magnitudes_per_year fy c) y) := by
  refine ⟨?_, dictGet_get_magnitudes_per_year fy p y, ?_⟩
  · rw [mem_keys_get_magnitudes_per_year, mem_keys_get_magnitudes_per_year]
    exact (hperm.map (get_year fy)).mem_iff
  · rw [dictGet_get_magnitudes_per_year, dictGet_get_magnitudes_per_year]
    exact (hperm.filter _).map _

/-- Witness for C9 on a concrete two-record collection and its swap. -/
theorem claim9_witness :
    (1 ∈ (get_magnitudes_per_year (fun t => t) [r2, r1]).map Prod.fst ↔
      1 ∈ (get_magnitudes_per_year (fun t => t) [r1, r2]).map Prod.fst) ∧
    dictGet (get_magnitudes_per_year (fun t => t) [r2, r1]) 1 =
      ([r2, r1].filter (fun q => get_year (fun t => t) q = 1)).map get_magnitude ∧
    (dictGet (get_magnitudes_per_year (fun t => t) [r2, r1]) 1).Perm
      (dictGet (get_magnitudes_per_year (fun t => t) [r1, r2]) 1) :=
  claim9_grouping_permutation_invariant (fun t => t) [r1, r2] [r2, r1] 1
    (List.Perm.swap r1 r2 [])

/-- Claim C10: every magnitude list stored in the grouping is non-empty,
so the length the average computation divides by is never zero. -/
theorem claim10_year_lists_nonempty (fy : ℤ → ℤ) (qs : List Record)
    (p : ℤ × List ℚ) (hp : p ∈ get_magnitudes_per_year fy qs) :
    p.2 ≠ [] ∧ ((dictGet (get_magnitudes_per_year fy qs) p.1).length : ℚ) ≠ 0 := by
  have hne := snd_ne_nil_get_magnitudes_per_year fy qs p hp
  refine ⟨hne, ?_⟩
  rw [dictGet_of_mem _ p hp (nodup_keys_get_magnitudes_per_year fy qs)]
  simpa using hne

/-- Witness for C10 on a concrete one-record collection: the single year
entry holds a non-empty list and the division denominator is non-zero. -/
theorem claim10_witness :
    (((1 : ℤ), [(5/2 : ℚ)]) : ℤ × List ℚ).2 ≠ [] ∧
    ((dictGet (get_magnitudes_per_year (fun t => t) [r1])
      (((1 : ℤ), [(5/2 : ℚ)]) : ℤ × List ℚ).1).length : ℚ) ≠ 0 :=
  claim10_year_lists_nonempty (fun t => t) [r1] ((1 : ℤ), [(5/2 : ℚ)])
    (by norm_num [get_magnitudes_per_year, groupStep, updateYearDict, get_year,
      get_magnitude, r1])

end Earthquakes
